import Mathlib

/-!
# The I/O register viewer (`src/platform/qt/IOViewer.cpp`)

A shallow embedding of the dialog that shows one 16-bit memory-mapped register both as
16 bit check boxes (`m_b`) and as the combined integer `m_value`, together with the field
controls rendered from the static register description table.

The widget toolkit is an external collaborator.  The embedding fixes the following
behaviour of its calls, and nothing else of it:

* `QAbstractButton::setChecked(c)` does nothing when the button already has state `c`;
  otherwise it stores `c` and emits `toggled(c)`, unless the signals of the button are
  blocked.  Slots run in the order in which they were connected.
* `QObject::blockSignals` only silences the signals of the object it is called on.  The
  signal `QButtonGroup::buttonToggled` belongs to the group, so blocking a radio button
  does not silence it.
* In an exclusive `QButtonGroup` checking a button unchecks the previously checked one
  (which toggles first), and the checked button cannot be unchecked by `setChecked(false)`.
* `QSpinBox::setValue` bounds its argument by the range of the control.
* Deleting a widget removes the connections it takes part in, and the lambdas a spin box
  connected to the bit check boxes are disconnected on its `destroyed` signal.  A
  `QButtonGroup` belongs to the layout and outlives its radio buttons; its slots then find
  no button and do nothing.  So only the rows of the register shown have slots on the bit
  check boxes, and the state keeps only those rows.

Only the check boxes `m_b[0] .. m_b[15]` exist; the state is a function on all naturals and
`Dialog.fits` keeps every field inside the first 16.  Whether a control is enabled decides
only whether the user can operate it; the handlers do not consult it.
-/

namespace IOViewer

/-! ## Register description table -/

/-- Modelled from the spec: the struct `RegisterItem` is declared in `IOViewer.h`, which is not
among the sources.  It is the spec's RegisterFieldDescriptor: a label, the first bit, the number
of bits (default 1), the read-only flag and the labels of an enumeration.  A label that is the
null string (`QString()`) is `none`. -/
structure RegisterItem where
  description : String
  start : Nat
  size : Nat := 1
  readonly : Bool := false
  items : List (Option String) := []
deriving DecidableEq, Repr

/-- The list of fields of one register (`typedef QList<RegisterItem> RegisterDescription`). -/
abbrev RegisterDescription := List RegisterItem

/-- The first field of DISPCNT (lines 30-39): three bits, six named modes and two
reserved codes with a null label. -/
def backgroundMode : RegisterItem :=
  { description := "Background mode", start := 0, size := 3, items := [
      some "Mode 0: 4 tile layers",
      some "Mode 1: 2 tile layers + 1 rotated/scaled tile layer",
      some "Mode 2: 2 rotated/scaled tile layers",
      some "Mode 3: Full 15-bit bitmap",
      some "Mode 4: Full 8-bit bitmap",
      some "Mode 5: Small 15-bit bitmap",
      none,
      none ] }

/-- The table built by `IOViewer::registerDescriptions()`, one entry per register, in the
order of the `append` calls. -/
def registerDescriptions : List RegisterDescription := [
  -- 0x04000000: DISPCNT
  [ backgroundMode,
    { description := "CGB Mode", start := 3, size := 1, readonly := true },
    { description := "Frame select", start := 4 },
    { description := "Unlocked HBlank", start := 5 },
    { description := "Linear OBJ tile mapping", start := 6 },
    { description := "Force blank screen", start := 7 },
    { description := "Enable background 0", start := 8 },
    { description := "Enable background 1", start := 9 },
    { description := "Enable background 2", start := 10 },
    { description := "Enable background 3", start := 11 },
    { description := "Enable OBJ", start := 12 },
    { description := "Enable Window 0", start := 13 },
    { description := "Enable Window 1", start := 14 },
    { description := "Enable OBJ Window", start := 15 } ],
  -- 0x04000002: Green swap (undocumented and unimplemented)
  [],
  -- 0x04000004: DISPSTAT
  [ { description := "Currently in VBlank", start := 0, size := 1, readonly := true },
    { description := "Currently in HBlank", start := 1, size := 1, readonly := true },
    { description := "Currently in VCounter", start := 2, size := 1, readonly := true },
    { description := "Enable VBlank IRQ generation", start := 3 },
    { description := "Enable HBlank IRQ generation", start := 4 },
    { description := "Enable VCounter IRQ generation", start := 5 },
    { description := "VCounter scanline", start := 8, size := 8 } ],
  -- 0x04000006: VCOUNT
  [ { description := "Current scanline", start := 0, size := 8, readonly := true } ],
  -- 0x04000008: BG0CNT
  [ { description := "Priority", start := 0, size := 2 },
    { description := "Tile data base (* 16kB)", start := 2, size := 2 },
    { description := "Enable mosaic", start := 6 },
    { description := "Enable 256-color", start := 7 },
    { description := "Tile map base (* 2kB)", start := 8, size := 5 },
    { description := "Background dimensions", start := 14, size := 2 } ],
  -- 0x0400000A: BG1CNT
  [ { description := "Priority", start := 0, size := 2 },
    { description := "Tile data base (* 16kB)", start := 2, size := 2 },
    { description := "Enable mosaic", start := 6 },
    { description := "Enable 256-color", start := 7 },
    { description := "Tile map base (* 2kB)", start := 8, size := 5 },
    { description := "Background dimensions", start := 14, size := 2 } ],
  -- 0x0400000C: BG2CNT
  [ { description := "Priority", start := 0, size := 2 },
    { description := "Tile data base (* 16kB)", start := 2, size := 2 },
    { description := "Enable mosaic", start := 6 },
    { description := "Enable 256-color", start := 7 },
    { description := "Tile map base (* 2kB)", start := 8, size := 5 },
    { description := "Overflow wraps", start := 13 },
    { description := "Background dimensions", start := 14, size := 2 } ],
  -- 0x0400000E: BG3CNT
  [ { description := "Priority", start := 0, size := 2 },
    { description := "Tile data base (* 16kB)", start := 2, size := 2 },
    { description := "Enable mosaic", start := 6 },
    { description := "Enable 256-color", start := 7 },
    { description := "Tile map base (* 2kB)", start := 8, size := 5 },
    { description := "Overflow wraps", start := 13 },
    { description := "Background dimensions", start := 14, size := 2 } ],
  -- 0x04000010: BG0HOFS
  [ { description := "Horizontal offset", start := 0, size := 9 } ],
  -- 0x04000012: BG0VOFS
  [ { description := "Vertical offset", start := 0, size := 9 } ],
  -- 0x04000014: BG1HOFS
  [ { description := "Horizontal offset", start := 0, size := 9 } ],
  -- 0x04000016: BG1VOFS
  [ { description := "Vertical offset", start := 0, size := 9 } ],
  -- 0x04000018: BG2HOFS
  [ { description := "Horizontal offset", start := 0, size := 9 } ],
  -- 0x0400001A: BG2VOFS
  [ { description := "Vertical offset", start := 0, size := 9 } ],
  -- 0x0400001C: BG3HOFS
  [ { description := "Horizontal offset", start := 0, size := 9 } ],
  -- 0x0400001E: BG3VOFS
  [ { description := "Vertical offset", start := 0, size := 9 } ] ]

/-- The bits of a field lie inside the 16-bit register. -/
def RegisterItem.inRegister (ri : RegisterItem) : Bool :=
  decide (ri.start + ri.size ≤ 16)

/-! ## Widgets -/

/-- One `QRadioButton` of an enumerated field, registered in its group under `id`. -/
structure RadioButton where
  id : Nat
  text : String
  enabled : Bool
deriving DecidableEq, Repr

/-- The control rendered for a field: a `QCheckBox`, a `QSpinBox` (its maximum and value;
the minimum stays 0), or an exclusive `QButtonGroup` of radio buttons.  A button of the
group is checked exactly when it is the group's checked button `checkedId`. -/
inductive Control where
  | checkBox (enabled checked : Bool)
  | spinBox (enabled : Bool) (maximum value : Nat)
  | buttonGroup (buttons : List RadioButton) (checkedId : Option Nat)
deriving DecidableEq, Repr

/-- What one pass of the rendering loop of `selectRegister` adds to the grid: the label of
the field in grid row `row` and the control bound to the field `ri`. -/
structure FieldRow where
  ri : RegisterItem
  row : Nat
  control : Control
deriving DecidableEq, Repr

/-- The radio buttons of an enumerated field (lines 273-282): one per code `o` below
`1 << size` whose label is not null.  `items.at(o)` is only defined inside the list; a
code past its end gets no button here. -/
def radioButtons (ri : RegisterItem) : List RadioButton :=
  (List.range (1 <<< ri.size)).filterMap fun o =>
    match ri.items.getD o none with
    | some text => some { id := o, text := text, enabled := !ri.readonly }
    | none => none

/-- The fresh control of a field (lines 242-307): a check box for one bit, a spin box with
maximum `(1 << size) - 1` when there are no labels, a button group otherwise.  New check
boxes and radio buttons are unchecked and a new spin box holds 0. -/
def newControl (ri : RegisterItem) : Control :=
  if ri.size = 1 then .checkBox (!ri.readonly) false
  else if ri.items.isEmpty then .spinBox (!ri.readonly) ((1 <<< ri.size) - 1) 0
  else .buttonGroup (radioButtons ri) none

/-- The rendering loop over a description, `i` being the next free grid row: the label
goes to row `i`, every radio button takes one further row. -/
def renderFrom : Nat → RegisterDescription → List FieldRow
  | _, [] => []
  | i, ri :: rest =>
    let c := newControl ri
    let used := match c with
      | .buttonGroup buttons _ => buttons.length
      | _ => 0
    { ri := ri, row := i, control := c } :: renderFrom (i + used + 1) rest

/-- The description `selectRegister` renders for an address: the table entry at
`address >> 1` when the table is long enough, and no lookup otherwise. -/
def describe (address : Nat) : RegisterDescription :=
  if h : address >>> 1 < registerDescriptions.length then
    registerDescriptions.get ⟨address >>> 1, h⟩
  else []

/-! ## The dialog and the emulation core -/

/-- A call the dialog makes on the emulation core, in the order of the calls. -/
inductive Event where
  | threadInterrupt
  | threadContinue
  | ioRead (address : Nat)
  | ioWrite (address value : Nat)
deriving DecidableEq, Repr

/-- The register access of the emulation core (`gba/io.h`, not among the sources), taken
as a parameter: `GBAIORead` may change the hardware and returns the value read,
`GBAIOWrite` returns the hardware after the write. -/
structure Core (G : Type) where
  GBAIORead : G → Nat → G × Nat
  GBAIOWrite : G → Nat → Nat → G

/-- The state of the dialog and of the controller behind it: the selected register, the
combined value, the 16 bit check boxes `m_b`, the text of the hex label, the rendered field
rows, whether a game is loaded, the hardware, and the calls made on the core so far. -/
structure Dialog (G : Type) where
  m_register : Nat
  m_value : Nat
  m_b : Nat → Bool
  regValue : String
  box : List FieldRow
  loaded : Bool
  gba : G
  trace : List Event

variable {G : Type}

/-- The state of bit check box `i` replaced by `t`. -/
def setFlag (m_b : Nat → Bool) (i : Nat) (t : Bool) : Nat → Bool :=
  fun j => if j = i then t else m_b j

/-- The loop of `bitFlipped`: `m_value |= m_b[i]->isChecked() << i` for `i` from 0 to 15. -/
def composeBits (m_b : Nat → Bool) : Nat :=
  (List.range 16).foldl (fun acc i => acc ||| ((m_b i).toNat <<< i)) 0

/-- An upper-case hexadecimal digit. -/
def hexDigit (n : Nat) : Char :=
  if n < 10 then Char.ofNat (48 + n) else Char.ofNat (55 + n)

/-- The text of the hex label: "0x" and the value in four upper-case hex digits. -/
def hexText (v : Nat) : String :=
  "0x" ++ String.mk [hexDigit (v / 4096 % 16), hexDigit (v / 256 % 16),
    hexDigit (v / 16 % 16), hexDigit (v % 16)]

/-- The slot `IOViewer::bitFlipped` (lines 203-209). -/
def bitFlipped (st : Dialog G) : Dialog G :=
  { st with m_value := composeBits st.m_b, regValue := hexText (composeBits st.m_b) }

/-- The handler of `QButtonGroup::buttonToggled` of an enumerated field (lines 300-306),
called with the identifier `v` of the toggled button: bit `i` of `v` goes to check box
`start + i`, whose signals are blocked meanwhile, so no slot of the check box runs. -/
def buttonToggled (ri : RegisterItem) (v : Nat) (st : Dialog G) : Dialog G :=
  (List.range ri.size).foldl
    (fun s i => { s with m_b := setFlag s.m_b (ri.start + i) (v.testBit i) }) st

/-- The call `button->setChecked(checked)` on the radio button `o` of an exclusive group
whose checked button is `checkedId`: the new checked button and the `buttonToggled`
signals of the group, in order.  Checking `o` unchecks the previous button first;
unchecking does nothing, because the button either is unchecked already or is the checked
button of an exclusive group. -/
def groupSetChecked (checkedId : Option Nat) (o : Nat) (checked : Bool) :
    Option Nat × List (Nat × Bool) :=
  if checked then
    if checkedId = some o then (checkedId, [])
    else match checkedId with
      | none => (some o, [(o, true)])
      | some p => (some o, [(p, false), (o, true)])
  else (checkedId, [])

/-- The handler an enumerated field connects to the `toggled` signal of each of its bit
check boxes (lines 284-295): with `v` the value of the bit group in `m_value`, every button
`i` of the group gets `setChecked(i == v)`; each `buttonToggled` the group emits on the way
runs `buttonToggled`.  Returns the checked button of the group and the dialog. -/
def groupRefresh (ri : RegisterItem) (buttons : List RadioButton) (checkedId : Option Nat)
    (st : Dialog G) : Option Nat × Dialog G :=
  let v := (st.m_value >>> ri.start) &&& ((1 <<< ri.size) - 1)
  (List.range (1 <<< ri.size)).foldl
    (fun (acc : Option Nat × Dialog G) i =>
      if buttons.any (fun b => b.id == i) then
        let r := groupSetChecked acc.1 i (i == v)
        (r.1, r.2.foldl (fun s sig => buttonToggled ri sig.1 s) acc.2)
      else acc)
    (checkedId, st)

/-- The value a spin box of a field takes when bit `b` of the field toggles to `t` (lines
257-263): `v = sbox->value() & ~(1 << b); v |= t << b; sbox->setValue(v)`, on 32-bit
integers, the result bounded by the maximum of the spin box.  The signals of the spin box
are blocked, so `valueChanged` is not emitted. -/
def spinAfterToggle (maximum value b : Nat) (t : Bool) : Nat :=
  min ((value &&& (0xFFFFFFFF ^^^ (1 <<< b))) ||| (t.toNat <<< b)) maximum

/-- The slot field row `k` has connected to the `toggled` signal of bit check box `i`, run
with the new state `t`; `recur` is `m_b[..]->setChecked`, which a field check box calls
back.  A row without a connection to check box `i` does nothing. -/
def fieldSlot (recur : Nat → Bool → Dialog G → Option (Dialog G)) (k i : Nat) (t : Bool)
    (st : Dialog G) : Option (Dialog G) :=
  match st.box.get? k with
  | none => some st
  | some r =>
    match r.control with
    | .checkBox enabled checked =>
      -- connect(m_b[ri.start], toggled, check, setChecked) and back (lines 246-247)
      if r.ri.start = i then
        if checked = t then some st
        else recur r.ri.start t
          { st with box := st.box.set k { r with control := .checkBox enabled t } }
      else some st
    | .spinBox enabled maximum value =>
      if r.ri.start ≤ i ∧ i < r.ri.start + r.ri.size then
        let value := spinAfterToggle maximum value (i - r.ri.start) t
        some { st with box := st.box.set k { r with control := .spinBox enabled maximum value } }
      else some st
    | .buttonGroup buttons checkedId =>
      if r.ri.start ≤ i ∧ i < r.ri.start + r.ri.size then
        let res := groupRefresh r.ri buttons checkedId st
        some { res.2 with box := res.2.box.set k { r with control := .buttonGroup buttons res.1 } }
      else some st

/-- The call `m_b[i]->setChecked(t)` with the signals of the check box not blocked.  An
unchanged state emits nothing.  A changed one emits `toggled(t)`: first the slot
`bitFlipped` connected in the constructor, then the slots of the field rows in the order
they were rendered.  `fuel` bounds the nesting of signal emissions; `none` means the bound
was reached. -/
def setChecked : Nat → Nat → Bool → Dialog G → Option (Dialog G)
  | fuel, i, t, st =>
    if st.m_b i = t then some st
    else match fuel with
      | 0 => none
      | fuel + 1 =>
        (List.range st.box.length).foldlM
          (fun s k => fieldSlot (setChecked fuel) k i t s)
          (bitFlipped { st with m_b := setFlag st.m_b i t })

/-- The control of field row `k` emits `valueChanged(v)`: the spin box holds the new
value, bounded by its maximum, and the lambdas of lines 254-256 run for `b` from 0 to
`size - 1`, each calling `m_b[start + b]->setChecked(v & (1 << b))`.  Rows that are not
spin boxes have no such signal. -/
def valueChanged (fuel k v : Nat) (st : Dialog G) : Option (Dialog G) :=
  match st.box.get? k with
  | some { ri := ri, row := row, control := .spinBox enabled maximum _ } =>
    let v := min v maximum
    (List.range ri.size).foldlM
      (fun s b => setChecked fuel (ri.start + b) (v.testBit b) s)
      { st with box := st.box.set k ⟨ri, row, .spinBox enabled maximum v⟩ }
  | _ => some st

/-- The radio button with identifier `o` of field row `k` is chosen: it gets checked and
the signals `buttonToggled` of the group run the handler of lines 300-306.  Rows that are
not button groups, and identifiers without a button, do nothing. -/
def buttonChosen (k o : Nat) (st : Dialog G) : Dialog G :=
  match st.box.get? k with
  | some { ri := ri, row := row, control := .buttonGroup buttons checkedId } =>
    if buttons.any (fun b => b.id == o) then
      let r := groupSetChecked checkedId o true
      let st := { st with box := st.box.set k ⟨ri, row, .buttonGroup buttons r.1⟩ }
      r.2.foldl (fun s sig => buttonToggled ri sig.1 s) st
    else st
  | _ => st

/-- The bracketed read of `updateRegister` (lines 190-195): `threadInterrupt`, the read of
`m_register` when a game is loaded (the value stays 0 otherwise), `threadContinue`.
Returns the dialog and the 16-bit `value`. -/
def hardwareRead (core : Core G) (st : Dialog G) : Dialog G × Nat :=
  let st := { st with trace := st.trace ++ [Event.threadInterrupt] }
  let rd : Dialog G × Nat :=
    if st.loaded then
      let r := core.GBAIORead st.gba st.m_register
      ({ st with gba := r.1, trace := st.trace ++ [Event.ioRead st.m_register] }, r.2 % 65536)
    else (st, 0)
  ({ rd.1 with trace := rd.1.trace ++ [Event.threadContinue] }, rd.2)

/-- The method `IOViewer::updateRegister` (lines 188-201): `m_value = 0`, the bracketed
read, then `setChecked` on the 16 bit check boxes, then `m_value = value`. -/
def updateRegister (core : Core G) (fuel : Nat) (st : Dialog G) : Option (Dialog G) :=
  let rd := hardwareRead core { st with m_value := 0 }
  ((List.range 16).foldlM (fun s i => setChecked fuel i (rd.2.testBit i) s) rd.1).map
    fun s => { s with m_value := rd.2 }

/-- The method `IOViewer::writeback` (lines 211-218): the bracketed write of `m_value`,
skipped when no game is loaded, then `updateRegister`. -/
def writeback (core : Core G) (fuel : Nat) (st : Dialog G) : Option (Dialog G) :=
  let st := { st with trace := st.trace ++ [Event.threadInterrupt] }
  let st :=
    if st.loaded then
      { st with gba := core.GBAIOWrite st.gba st.m_register st.m_value,
                trace := st.trace ++ [Event.ioWrite st.m_register st.m_value] }
    else st
  let st := { st with trace := st.trace ++ [Event.threadContinue] }
  updateRegister core fuel st

/-- The method `IOViewer::selectRegister(address)` (lines 220-313): the old rows are
deleted, the rows of the description are rendered, then `updateRegister`. -/
def selectRegister (core : Core G) (fuel address : Nat) (st : Dialog G) : Option (Dialog G) :=
  updateRegister core fuel
    { st with m_register := address, box := renderFrom 0 (describe address) }

/-- The bit check boxes after the bits of `v` were written to the `n` check boxes from
`a` on, the others being kept. -/
def writeBits (m_b : Nat → Bool) (a n v : Nat) : Nat → Bool :=
  fun j => if a ≤ j ∧ j < a + n then v.testBit (j - a) else m_b j

/-- The control of the field `ri` once the slot the field connected to bit check box `i`
has run for `toggled(t)`, the combined value being `mv` by then. -/
def controlAfterToggle (ri : RegisterItem) (i : Nat) (t : Bool) (mv : Nat) : Control → Control
  | .checkBox enabled checked =>
    if ri.start = i then .checkBox enabled t else .checkBox enabled checked
  | .spinBox enabled maximum value =>
    if ri.start ≤ i ∧ i < ri.start + ri.size then
      .spinBox enabled maximum (spinAfterToggle maximum value (i - ri.start) t)
    else .spinBox enabled maximum value
  | .buttonGroup buttons checkedId =>
    if ri.start ≤ i ∧ i < ri.start + ri.size then
      .buttonGroup buttons
        (if buttons.any (fun b => b.id == (mv >>> ri.start) &&& ((1 <<< ri.size) - 1)) then
          some ((mv >>> ri.start) &&& ((1 <<< ri.size) - 1))
        else checkedId)
    else .buttonGroup buttons checkedId

/-- A field row once its slot on bit check box `i` has run for `toggled(t)`. -/
def rowAfterToggle (i : Nat) (t : Bool) (mv : Nat) (r : FieldRow) : FieldRow :=
  { r with control := controlAfterToggle r.ri i t mv r.control }

/-- The bracket discipline from a point of a trace on: `paused` tells whether the
emulation thread is interrupted there, `used` whether the open bracket already holds a
register access.  An interrupt is answered by one continue, an access needs an open
bracket that holds none yet, and the trace ends with the thread running. -/
def bracketedFrom : Bool → Bool → List Event → Bool
  | paused, _, [] => !paused
  | false, _, Event.threadInterrupt :: rest => bracketedFrom true false rest
  | true, _, Event.threadContinue :: rest => bracketedFrom false false rest
  | true, false, Event.ioRead _ :: rest => bracketedFrom true true rest
  | true, false, Event.ioWrite _ _ :: rest => bracketedFrom true true rest
  | _, _, _ => false

/-- Every register access of the trace lies between an interrupt and the next continue,
and no bracket holds more than one access. -/
def wellBracketed (run : List Event) : Bool :=
  bracketedFrom false false run

/-- The register accesses of a trace. -/
def accesses (run : List Event) : List Event :=
  run.filter fun e =>
    match e with
    | Event.ioRead _ => true
    | Event.ioWrite _ _ => true
    | _ => false

/-- The dialog in the constructor just before `selectRegister(0)`: no bit check box is
checked and nothing is rendered. -/
def Dialog.blank (loaded : Bool) (gba : G) : Dialog G :=
  { m_register := 0, m_value := 0, m_b := fun _ => false, regValue := "", box := [],
    loaded := loaded, gba := gba, trace := [] }

/-- The dialog with the rows of the register at `address` freshly rendered over a blank
dialog: no bit check box is checked and every field control is in its initial state. -/
def Dialog.rendered (loaded : Bool) (gba : G) (address : Nat) : Dialog G :=
  { Dialog.blank loaded gba with m_register := address, box := renderFrom 0 (describe address) }

/-- The identifier of the selected radio button of a button group; `none` when no button
is selected, and for the other controls. -/
def Control.selected : Control → Option Nat
  | .buttonGroup _ checkedId => checkedId
  | _ => none

/-- A core whose hardware is one 16-bit latch: a read returns the last value written and
changes nothing. -/
def latchCore : Core Nat :=
  { GBAIORead := fun g _ => (g, g), GBAIOWrite := fun _ _ v => v % 65536 }

/-- Every rendered field lies inside the 16-bit register. -/
def Dialog.fits (st : Dialog G) : Bool :=
  st.box.all fun r => r.ri.inRegister

/-- The controls of the rendered rows, in order. -/
def Dialog.controls (st : Dialog G) : List Control :=
  st.box.map fun r => r.control

/-- The states of the 16 bit check boxes, bit 0 first. -/
def Dialog.flags (st : Dialog G) : List Bool :=
  (List.range 16).map st.m_b

/-! ## Bits of the combined value -/

theorem testBit_toNat (b : Bool) (k : Nat) : (b.toNat).testBit k = (decide (k = 0) && b) := by
  cases b
  · simp
  · cases k with
    | zero => simp
    | succ k => simp [Nat.testBit_succ]

theorem testBit_foldl_flags (f : Nat → Bool) (n j : Nat) :
    ((List.range n).foldl (fun acc i => acc ||| ((f i).toNat <<< i)) 0).testBit j
      = (decide (j < n) && f j) := by
  induction n with
  | zero => simp
  | succ n ih =>
    rw [List.range_succ, List.foldl_append]
    simp only [List.foldl_cons, List.foldl_nil, Nat.testBit_or, ih, Nat.testBit_shiftLeft,
      testBit_toNat]
    by_cases h1 : j < n
    · have : ¬ j ≥ n := by omega
      have : j < n + 1 := by omega
      simp [*]
    · by_cases h2 : j = n
      · subst h2; simp
      · have : ¬ j ≥ n ∨ ¬ (j - n = 0) := by omega
        have : ¬ j < n + 1 := by omega
        rcases ‹¬ j ≥ n ∨ ¬ (j - n = 0)› with h | h <;> simp [*]

theorem testBit_composeBits (f : Nat → Bool) (j : Nat) :
    (composeBits f).testBit j = (decide (j < 16) && f j) :=
  testBit_foldl_flags f 16 j

theorem testBit_eq_false_of_lt (v i : Nat) (hv : v < 65536) (hi : 16 ≤ i) :
    v.testBit i = false := by
  have h16 : 2 ^ 16 ≤ 2 ^ i := Nat.pow_le_pow_right (by norm_num) hi
  exact Nat.testBit_lt_two_pow (by omega)

theorem composeBits_testBit (v : Nat) (hv : v < 65536) : composeBits v.testBit = v := by
  apply Nat.eq_of_testBit_eq
  intro i
  rw [testBit_composeBits]
  by_cases h : i < 16
  · simp [h]
  · simp [h, testBit_eq_false_of_lt v i hv (by omega)]

theorem composeBits_congr (f g : Nat → Bool) (h : ∀ j, j < 16 → f j = g j) :
    composeBits f = composeBits g := by
  apply Nat.eq_of_testBit_eq
  intro i
  rw [testBit_composeBits, testBit_composeBits]
  by_cases hi : i < 16
  · simp [hi, h i hi]
  · simp [hi]

theorem setFlag_self (f : Nat → Bool) (i : Nat) : setFlag f i (f i) = f := by
  funext j
  unfold setFlag
  split
  · next h => rw [h]
  · rfl

/-! ## The handler of `buttonToggled` -/

theorem buttonToggled_eq (ri : RegisterItem) (v : Nat) (st : Dialog G) :
    buttonToggled ri v st = { st with m_b := writeBits st.m_b ri.start ri.size v } := by
  unfold buttonToggled
  have key : ∀ n, (List.range n).foldl
      (fun (s : Dialog G) i => { s with m_b := setFlag s.m_b (ri.start + i) (v.testBit i) }) st
      = { st with m_b := writeBits st.m_b ri.start n v } := by
    intro n
    induction n with
    | zero =>
      cases st
      simp only [List.range_zero, List.foldl_nil, Dialog.mk.injEq, true_and, and_true]
      funext j
      have : ¬ (ri.start ≤ j ∧ j < ri.start) := by omega
      simp [writeBits, this]
    | succ n ih =>
      rw [List.range_succ, List.foldl_append, ih]
      cases st
      simp only [List.foldl_cons, List.foldl_nil, Dialog.mk.injEq, true_and, and_true]
      funext j
      simp only [setFlag, writeBits]
      by_cases h : j = ri.start + n
      · subst h; simp
      · by_cases h2 : ri.start ≤ j ∧ j < ri.start + n
        · have : ri.start ≤ j ∧ j < ri.start + (n + 1) := ⟨h2.1, by omega⟩
          simp [h, h2, this]
        · have : ¬ (ri.start ≤ j ∧ j < ri.start + (n + 1)) := by omega
          simp [h, h2, this]
  exact key ri.size

theorem writeBits_writeBits (f : Nat → Bool) (a n p v : Nat) :
    writeBits (writeBits f a n p) a n v = writeBits f a n v := by
  funext j
  simp only [writeBits]
  split <;> rfl

theorem writeBits_of_match (f : Nat → Bool) (a n v : Nat)
    (h : ∀ b, b < n → f (a + b) = v.testBit b) : writeBits f a n v = f := by
  funext j
  simp only [writeBits]
  split
  · next hj =>
    have := h (j - a) (by omega)
    rw [← this]
    congr 1
    omega
  · rfl

theorem groupValue_testBit (f : Nat → Bool) (s w b : Nat) (hb : b < w) (hfit : s + w ≤ 16) :
    ((composeBits f >>> s) &&& ((1 <<< w) - 1)).testBit b = f (s + b) := by
  rw [Nat.testBit_and, Nat.testBit_shiftRight, Nat.one_shiftLeft, Nat.testBit_two_pow_sub_one,
    testBit_composeBits]
  have : s + b < 16 := by omega
  simp [hb, this]

theorem groupValue_lt (x s w : Nat) : (x >>> s) &&& ((1 <<< w) - 1) < 1 <<< w := by
  have h1 : (x >>> s) &&& ((1 <<< w) - 1) ≤ (1 <<< w) - 1 := Nat.and_le_right
  have h2 : 0 < 1 <<< w := by rw [Nat.one_shiftLeft]; exact Nat.two_pow_pos w
  omega

theorem buttonToggled_of_match (ri : RegisterItem) (v : Nat) (st : Dialog G)
    (h : ∀ b, b < ri.size → st.m_b (ri.start + b) = v.testBit b) :
    buttonToggled ri v st = st := by
  rw [buttonToggled_eq, writeBits_of_match _ _ _ _ h]

theorem buttonToggled_twice_of_match (ri : RegisterItem) (p v : Nat) (st : Dialog G)
    (h : ∀ b, b < ri.size → st.m_b (ri.start + b) = v.testBit b) :
    buttonToggled ri v (buttonToggled ri p st) = st := by
  rw [buttonToggled_eq, buttonToggled_eq]
  simp only [writeBits_writeBits]
  rw [writeBits_of_match _ _ _ _ h]

theorem groupRefresh_loop (ri : RegisterItem) (buttons : List RadioButton) (v : Nat)
    (st : Dialog G) (h : ∀ b, b < ri.size → st.m_b (ri.start + b) = v.testBit b) :
    ∀ (L : List Nat) (c : Option Nat),
      L.foldl
        (fun (acc : Option Nat × Dialog G) i =>
          if buttons.any (fun b => b.id == i) then
            let r := groupSetChecked acc.1 i (i == v)
            (r.1, r.2.foldl (fun s sig => buttonToggled ri sig.1 s) acc.2)
          else acc)
        (c, st)
      = (if v ∈ L ∧ buttons.any (fun b => b.id == v) = true then some v else c, st) := by
  intro L
  induction L with
  | nil => intro c; simp
  | cons i L ih =>
    intro c
    rw [List.foldl_cons]
    by_cases hb : buttons.any (fun b => b.id == i) = true
    · by_cases hi : i = v
      · subst hi
        have step : (let r := groupSetChecked c i (i == i)
            (r.1, r.2.foldl (fun s sig => buttonToggled ri sig.1 s) st)) = (some i, st) := by
          unfold groupSetChecked
          by_cases hc : c = some i
          · simp [hc]
          · cases c with
            | none => simp [buttonToggled_of_match ri i st h]
            | some p =>
              simp [hc, buttonToggled_twice_of_match ri p i st h]
        simp only [hb, if_true]
        rw [step, ih]
        simp [hb]
      · have step : (let r := groupSetChecked c i (i == v)
            (r.1, r.2.foldl (fun s sig => buttonToggled ri sig.1 s) st)) = (c, st) := by
          unfold groupSetChecked
          simp [hi]
        simp only [hb, if_true]
        rw [step, ih]
        have : (v ∈ i :: L) ↔ (v ∈ L) := by simp [Ne.symm hi]
        simp only [this]
    · simp only [hb]
      rw [if_neg (by simp), ih]
      by_cases hi : i = v
      · subst hi; simp [hb]
      · have : (v ∈ i :: L) ↔ (v ∈ L) := by simp [Ne.symm hi]
        simp only [this]

theorem groupRefresh_eq (ri : RegisterItem) (buttons : List RadioButton)
    (checkedId : Option Nat) (st : Dialog G) (hfit : ri.start + ri.size ≤ 16)
    (hv : st.m_value = composeBits st.m_b) :
    groupRefresh ri buttons checkedId st =
      (if buttons.any (fun b => b.id == (st.m_value >>> ri.start) &&& ((1 <<< ri.size) - 1))
        then some ((st.m_value >>> ri.start) &&& ((1 <<< ri.size) - 1)) else checkedId, st) := by
  unfold groupRefresh
  have h : ∀ b, b < ri.size →
      st.m_b (ri.start + b) = ((st.m_value >>> ri.start) &&& ((1 <<< ri.size) - 1)).testBit b := by
    intro b hb
    rw [hv, groupValue_testBit _ _ _ _ hb hfit]
  simp only []
  rw [groupRefresh_loop ri buttons _ st h]
  have hmem : (st.m_value >>> ri.start) &&& ((1 <<< ri.size) - 1) ∈ List.range (1 <<< ri.size) :=
    List.mem_range.mpr (groupValue_lt _ _ _)
  simp [hmem]

/-! ## The slots on a bit check box -/

theorem setChecked_same (fuel i : Nat) (t : Bool) (st : Dialog G) (h : st.m_b i = t) :
    setChecked fuel i t st = some st := by
  unfold setChecked
  simp [h]

theorem set_of_get? {α : Type} (l : List α) (k : Nat) (a : α) (h : l.get? k = some a) :
    l.set k a = l := by
  induction l generalizing k with
  | nil => simp
  | cons x l ih =>
    cases k with
    | zero => simp at h; simp [h]
    | succ k => simp at h; simp [ih k (by simpa using h)]

theorem set_take_map_drop {α : Type} (f : α → α) (l : List α) (n : Nat) (a : α)
    (h : l.get? n = some a) :
    ((l.take n).map f ++ l.drop n).set n (f a) = (l.take (n + 1)).map f ++ l.drop (n + 1) := by
  induction l generalizing n with
  | nil => simp at h
  | cons x l ih =>
    cases n with
    | zero => simp at h; simp [h]
    | succ n =>
      simp at h
      simpa using ih n (by simpa using h)

theorem get?_take_map_drop {α : Type} (f : α → α) (l : List α) (n : Nat) :
    ((l.take n).map f ++ l.drop n).get? n = l.get? n := by
  induction l generalizing n with
  | nil => simp
  | cons x l ih =>
    cases n with
    | zero => simp
    | succ n => simpa using ih n

theorem fieldSlot_eq (fuel k i : Nat) (t : Bool) (st : Dialog G) (r : FieldRow)
    (hk : st.box.get? k = some r) (hfit : r.ri.start + r.ri.size ≤ 16)
    (hi : st.m_b i = t) (hv : st.m_value = composeBits st.m_b) :
    fieldSlot (setChecked fuel) k i t st
      = some { st with box := st.box.set k (rowAfterToggle i t st.m_value r) } := by
  have hself : ({ st with box := st.box.set k r } : Dialog G) = st := by
    rw [set_of_get? _ _ _ hk]
  unfold fieldSlot
  rw [hk]
  obtain ⟨ri, row, control⟩ := r
  cases control with
  | checkBox enabled checked =>
    simp only [rowAfterToggle, controlAfterToggle]
    by_cases h1 : ri.start = i
    · by_cases h2 : checked = t
      · subst h2
        simp only [h1, if_true]
        rw [hself]
      · simp only [h1, h2, if_true, if_false]
        rw [setChecked_same]
        exact hi
    · simp only [h1, if_false]
      rw [hself]
  | spinBox enabled maximum value =>
    simp only [rowAfterToggle, controlAfterToggle]
    by_cases h1 : ri.start ≤ i ∧ i < ri.start + ri.size
    · simp only [h1, and_self, if_true]
    · simp only [h1, if_false]
      rw [hself]
  | buttonGroup buttons checkedId =>
    simp only [rowAfterToggle, controlAfterToggle]
    by_cases h1 : ri.start ≤ i ∧ i < ri.start + ri.size
    · simp only [h1, and_self, if_true]
      rw [groupRefresh_eq ri buttons checkedId st hfit hv]
    · simp only [h1, if_false]
      rw [hself]

theorem fits_get? (st : Dialog G) (h : st.fits = true) (k : Nat) (r : FieldRow)
    (hk : st.box.get? k = some r) : r.ri.start + r.ri.size ≤ 16 := by
  unfold Dialog.fits at h
  rw [List.all_eq_true] at h
  have hm : r ∈ st.box := List.get?_mem hk
  simpa [RegisterItem.inRegister] using h r hm

theorem slots_fold (fuel i : Nat) (t : Bool) (st : Dialog G) (hfits : st.fits = true)
    (hi : st.m_b i = t) (hv : st.m_value = composeBits st.m_b) :
    ∀ n, n ≤ st.box.length →
      (List.range n).foldlM (fun s k => fieldSlot (setChecked fuel) k i t s) st
        = some { st with box := (st.box.take n).map (rowAfterToggle i t st.m_value)
                                  ++ st.box.drop n } := by
  intro n
  induction n with
  | zero => intro _; simp
  | succ n ih =>
    intro hn
    rw [List.range_succ, List.foldlM_append, ih (by omega)]
    obtain ⟨r, hr⟩ : ∃ r, st.box.get? n = some r := by
      have : n < st.box.length := by omega
      exact ⟨st.box.get ⟨n, this⟩, by simp [List.getElem?_eq_getElem this]⟩
    simp only [Option.bind_eq_bind, Option.some_bind, List.foldlM_cons, List.foldlM_nil,
      Option.pure_def, Option.bind_some]
    have step := fieldSlot_eq fuel n i t
      { st with box := (st.box.take n).map (rowAfterToggle i t st.m_value) ++ st.box.drop n } r
      (by rw [← hr]; exact get?_take_map_drop _ _ _) (fits_get? st hfits n r hr) hi hv
    rw [step]
    simp only [set_take_map_drop _ _ _ _ hr]

theorem setChecked_eq (fuel i : Nat) (t : Bool) (st : Dialog G) (hfits : st.fits = true)
    (hne : st.m_b i ≠ t) :
    setChecked (fuel + 1) i t st
      = some { bitFlipped { st with m_b := setFlag st.m_b i t } with
          box := st.box.map (rowAfterToggle i t (composeBits (setFlag st.m_b i t))) } := by
  rw [setChecked]
  simp only [hne, if_false]
  have hf : (bitFlipped { st with m_b := setFlag st.m_b i t }).fits = true := hfits
  have run := slots_fold fuel i t (bitFlipped { st with m_b := setFlag st.m_b i t }) hf
    (by simp [bitFlipped, setFlag]) (by simp [bitFlipped]) st.box.length (by simp [bitFlipped])
  have hbox : (bitFlipped { st with m_b := setFlag st.m_b i t }).box = st.box := rfl
  rw [hbox] at run
  rw [run]
  simp [bitFlipped]

theorem map_ri_rowAfterToggle (i : Nat) (t : Bool) (mv : Nat) (box : List FieldRow) :
    (box.map (rowAfterToggle i t mv)).map FieldRow.ri = box.map FieldRow.ri := by
  rw [List.map_map]
  rfl

theorem fits_eq_of_map_ri (st st' : Dialog G)
    (h : st'.box.map FieldRow.ri = st.box.map FieldRow.ri) : st'.fits = st.fits := by
  have key : ∀ s : Dialog G, s.fits = (s.box.map FieldRow.ri).all RegisterItem.inRegister := by
    intro s
    unfold Dialog.fits
    induction s.box with
    | nil => rfl
    | cons r l ih => simp [List.all_cons, ih]
  rw [key, key, h]

/-- What a run of `setChecked` calls keeps: the selected register, the controller, the
call trace and the fields the rows belong to. -/
theorem setChecked_frame (fuel i : Nat) (t : Bool) (st : Dialog G) (hfits : st.fits = true) :
    ∃ st', setChecked (fuel + 1) i t st = some st' ∧
      st'.m_b = setFlag st.m_b i t ∧ st'.fits = true ∧
      st'.box.map FieldRow.ri = st.box.map FieldRow.ri ∧
      st'.m_register = st.m_register ∧ st'.loaded = st.loaded ∧ st'.gba = st.gba ∧
      st'.trace = st.trace ∧
      (st'.m_value = composeBits st'.m_b ∨ (st'.m_value = st.m_value ∧ st'.m_b = st.m_b)) := by
  by_cases h : st.m_b i = t
  · refine ⟨st, setChecked_same _ _ _ _ h, ?_, hfits, rfl, rfl, rfl, rfl, rfl, Or.inr ⟨rfl, rfl⟩⟩
    rw [← h, setFlag_self]
  · refine ⟨_, setChecked_eq fuel i t st hfits h, rfl, ?_, ?_, rfl, rfl, rfl, rfl, Or.inl rfl⟩
    · rw [← hfits]
      apply fits_eq_of_map_ri
      exact map_ri_rowAfterToggle _ _ _ _
    · exact map_ri_rowAfterToggle _ _ _ _

theorem setChecked_fold (fuel : Nat) (idx : Nat → Nat) (bit : Nat → Bool) :
    ∀ (L : List Nat) (st : Dialog G), st.fits = true →
      ∃ st', L.foldlM (fun s b => setChecked (fuel + 1) (idx b) (bit b) s) st = some st' ∧
        st'.m_b = L.foldl (fun f b => setFlag f (idx b) (bit b)) st.m_b ∧ st'.fits = true ∧
        st'.box.map FieldRow.ri = st.box.map FieldRow.ri ∧
        st'.m_register = st.m_register ∧ st'.loaded = st.loaded ∧ st'.gba = st.gba ∧
        st'.trace = st.trace ∧
        (st'.m_value = composeBits st'.m_b ∨ (st'.m_value = st.m_value ∧ st'.m_b = st.m_b)) := by
  intro L
  induction L with
  | nil =>
    intro st hfits
    exact ⟨st, rfl, rfl, hfits, rfl, rfl, rfl, rfl, rfl, Or.inr ⟨rfl, rfl⟩⟩
  | cons b L ih =>
    intro st hfits
    obtain ⟨s1, e1, hb1, hf1, hr1, hreg1, hl1, hg1, ht1, hv1⟩ :=
      setChecked_frame fuel (idx b) (bit b) st hfits
    obtain ⟨s2, e2, hb2, hf2, hr2, hreg2, hl2, hg2, ht2, hv2⟩ := ih s1 hf1
    refine ⟨s2, ?_, ?_, hf2, hr2.trans hr1, hreg2.trans hreg1, hl2.trans hl1, hg2.trans hg1,
      ht2.trans ht1, ?_⟩
    · simp only [List.foldlM_cons, Option.bind_eq_bind, e1, Option.some_bind, e2]
    · rw [List.foldl_cons, hb2, hb1]
    · rcases hv2 with h | ⟨h, h'⟩
      · exact Or.inl h
      · rcases hv1 with g | ⟨g, g'⟩
        · left; rw [h, h', g]
        · right; exact ⟨h.trans g, h'.trans g'⟩

theorem foldl_setFlag_range (f : Nat → Bool) (a v : Nat) (n : Nat) :
    (List.range n).foldl (fun g b => setFlag g (a + b) (v.testBit b)) f = writeBits f a n v := by
  induction n with
  | zero =>
    funext j
    have : ¬ (a ≤ j ∧ j < a) := by omega
    simp [writeBits, this]
  | succ n ih =>
    rw [List.range_succ, List.foldl_append, ih]
    funext j
    simp only [List.foldl_cons, List.foldl_nil, setFlag, writeBits]
    by_cases h : j = a + n
    · subst h; simp
    · by_cases h2 : a ≤ j ∧ j < a + n
      · have : a ≤ j ∧ j < a + (n + 1) := ⟨h2.1, by omega⟩
        simp [h, h2, this]
      · have : ¬ (a ≤ j ∧ j < a + (n + 1)) := by omega
        simp [h, h2, this]

theorem composeBits_writeBits_all (f : Nat → Bool) (v : Nat) (hv : v < 65536) :
    composeBits (writeBits f 0 16 v) = v := by
  rw [← composeBits_testBit v hv]
  apply composeBits_congr
  intro j hj
  simp [writeBits, hj, composeBits_testBit v hv]

/-! ## Reading the register and writing it back -/

theorem hardwareRead_value (core : Core G) (st : Dialog G) :
    (hardwareRead core st).2
      = (if st.loaded then (core.GBAIORead st.gba st.m_register).2 % 65536 else 0) := by
  unfold hardwareRead
  cases st.loaded <;> simp

theorem hardwareRead_value_lt (core : Core G) (st : Dialog G) :
    (hardwareRead core st).2 < 65536 := by
  rw [hardwareRead_value]
  split
  · exact Nat.mod_lt _ (by norm_num)
  · norm_num

theorem hardwareRead_gba (core : Core G) (st : Dialog G) :
    (hardwareRead core st).1.gba
      = (if st.loaded then (core.GBAIORead st.gba st.m_register).1 else st.gba) := by
  unfold hardwareRead
  cases st.loaded <;> simp

theorem hardwareRead_trace (core : Core G) (st : Dialog G) :
    (hardwareRead core st).1.trace
      = st.trace ++ ([Event.threadInterrupt]
          ++ ((if st.loaded then [Event.ioRead st.m_register] else [])
          ++ [Event.threadContinue])) := by
  unfold hardwareRead
  cases st.loaded <;> simp

theorem hardwareRead_keeps (core : Core G) (st : Dialog G) :
    (hardwareRead core st).1.m_b = st.m_b ∧ (hardwareRead core st).1.box = st.box ∧
    (hardwareRead core st).1.m_register = st.m_register ∧
    (hardwareRead core st).1.loaded = st.loaded ∧
    (hardwareRead core st).1.m_value = st.m_value := by
  unfold hardwareRead
  cases h : st.loaded <;> simp [h]

theorem updateRegister_spec (core : Core G) (fuel : Nat) (st : Dialog G)
    (hfits : st.fits = true) :
    ∃ st', updateRegister core (fuel + 1) st = some st' ∧
      st'.m_value = (if st.loaded then (core.GBAIORead st.gba st.m_register).2 % 65536 else 0) ∧
      st'.m_b = writeBits st.m_b 0 16
        (if st.loaded then (core.GBAIORead st.gba st.m_register).2 % 65536 else 0) ∧
      st'.fits = true ∧
      st'.box.map FieldRow.ri = st.box.map FieldRow.ri ∧
      st'.m_register = st.m_register ∧ st'.loaded = st.loaded ∧
      st'.gba = (if st.loaded then (core.GBAIORead st.gba st.m_register).1 else st.gba) ∧
      st'.trace = st.trace ++ ([Event.threadInterrupt]
          ++ ((if st.loaded then [Event.ioRead st.m_register] else [])
          ++ [Event.threadContinue])) := by
  unfold updateRegister
  obtain ⟨kb, kbox, kreg, kl, _⟩ := hardwareRead_keeps core { st with m_value := 0 }
  have hfits' : (hardwareRead core { st with m_value := 0 }).1.fits = true := by
    rw [← hfits]
    exact fits_eq_of_map_ri _ _ (by rw [kbox])
  obtain ⟨s, e, hb, hf, hr, hreg, hlo, hg, ht, _⟩ :=
    setChecked_fold fuel (fun i => i)
      (fun i => Nat.testBit (hardwareRead core { st with m_value := 0 }).2 i) (List.range 16)
      (hardwareRead core { st with m_value := 0 }).1 hfits'
  have hw := foldl_setFlag_range st.m_b 0 (hardwareRead core { st with m_value := 0 }).2 16
  simp only [Nat.zero_add] at hw
  have hval := hardwareRead_value core { st with m_value := 0 }
  simp only [] at hval
  refine ⟨{ s with m_value := (hardwareRead core { st with m_value := 0 }).2 }, ?_, hval, ?_,
    hf, ?_, ?_, ?_, ?_, ?_⟩
  · simp only [] at e ⊢
    rw [e]
    rfl
  · show s.m_b = _
    rw [hb, kb, ← hval]
    exact hw
  · show s.box.map FieldRow.ri = _
    rw [hr, kbox]
  · show s.m_register = _
    rw [hreg, kreg]
  · show s.loaded = _
    rw [hlo, kl]
  · show s.gba = _
    rw [hg, hardwareRead_gba]
  · show s.trace = _
    rw [ht, hardwareRead_trace]

theorem writeback_spec (core : Core G) (fuel : Nat) (st : Dialog G) (hfits : st.fits = true) :
    ∃ st', writeback core (fuel + 1) st = some st' ∧
      st'.fits = true ∧ st'.box.map FieldRow.ri = st.box.map FieldRow.ri ∧
      st'.m_register = st.m_register ∧ st'.loaded = st.loaded ∧
      (st.loaded = true →
        st'.m_value = (core.GBAIORead (core.GBAIOWrite st.gba st.m_register st.m_value)
            st.m_register).2 % 65536 ∧
        st'.m_b = writeBits st.m_b 0 16 st'.m_value ∧
        st'.gba = (core.GBAIORead (core.GBAIOWrite st.gba st.m_register st.m_value)
            st.m_register).1 ∧
        st'.trace = st.trace ++ [Event.threadInterrupt, Event.ioWrite st.m_register st.m_value,
          Event.threadContinue, Event.threadInterrupt, Event.ioRead st.m_register,
          Event.threadContinue]) ∧
      (st.loaded = false →
        st'.m_value = 0 ∧ st'.m_b = writeBits st.m_b 0 16 0 ∧ st'.gba = st.gba ∧
        st'.trace = st.trace ++ [Event.threadInterrupt, Event.threadContinue,
          Event.threadInterrupt, Event.threadContinue]) := by
  unfold writeback
  cases hl : st.loaded with
  | true =>
    obtain ⟨s, e, hv, hb, hf, hr, hreg, hlo, hg, ht⟩ := updateRegister_spec core fuel
      { st with gba := core.GBAIOWrite st.gba st.m_register st.m_value,
                trace := st.trace ++ [Event.threadInterrupt]
                  ++ [Event.ioWrite st.m_register st.m_value] ++ [Event.threadContinue] } hfits
    simp only [hl, if_true] at hv hb hg ht
    refine ⟨s, ?_, hf, hr, hreg, by simpa [hl] using hlo, fun _ => ⟨hv, ?_, hg, ?_⟩,
      fun h => by simp at h⟩
    · simpa [hl] using e
    · rw [hv]; exact hb
    · simpa using ht
  | false =>
    obtain ⟨s, e, hv, hb, hf, hr, hreg, hlo, hg, ht⟩ := updateRegister_spec core fuel
      { st with trace := st.trace ++ [Event.threadInterrupt] ++ [Event.threadContinue] } hfits
    simp only [hl, Bool.false_eq_true, if_false] at hv hb hg ht
    refine ⟨s, ?_, hf, hr, hreg, by simpa [hl] using hlo, fun h => by simp at h,
      fun _ => ⟨hv, hb, hg, ?_⟩⟩
    · simpa [hl] using e
    · simpa using ht

theorem describe_of_table_too_short (address : Nat)
    (h : registerDescriptions.length ≤ address >>> 1) : describe address = [] := by
  unfold describe
  rw [dif_neg (by omega)]

/-! ## Changes made through a field control -/

theorem map_ri_set (box : List FieldRow) (k : Nat) (r r' : FieldRow)
    (hk : box.get? k = some r) (hri : r'.ri = r.ri) :
    (box.set k r').map FieldRow.ri = box.map FieldRow.ri := by
  rw [List.map_set, hri]
  apply set_of_get?
  simp only [List.get?_eq_getElem?, List.getElem?_map] at hk ⊢
  rw [hk]
  rfl

theorem testBit_eq_false_of_lt_two_pow (v w b : Nat) (hv : v < 2 ^ w) (hb : w ≤ b) :
    v.testBit b = false := by
  have : 2 ^ w ≤ 2 ^ b := Nat.pow_le_pow_right (by norm_num) hb
  exact Nat.testBit_lt_two_pow (by omega)

theorem groupValue_writeBits (f : Nat → Bool) (s w v : Nat) (hfit : s + w ≤ 16)
    (hv : v < 2 ^ w) :
    (composeBits (writeBits f s w v) >>> s) &&& ((1 <<< w) - 1) = v := by
  apply Nat.eq_of_testBit_eq
  intro b
  by_cases hb : b < w
  · rw [groupValue_testBit _ _ _ _ hb hfit]
    have : s ≤ s + b ∧ s + b < s + w := by omega
    simp [writeBits, this]
  · rw [Nat.testBit_and, Nat.one_shiftLeft, Nat.testBit_two_pow_sub_one,
      testBit_eq_false_of_lt_two_pow v w b hv (by omega)]
    simp [hb]

theorem composeBits_writeBits (f : Nat → Bool) (s w v : Nat) (hfit : s + w ≤ 16)
    (hv : v < 2 ^ w) :
    composeBits (writeBits f s w v)
      = (composeBits f &&& (65535 ^^^ (((1 <<< w) - 1) <<< s))) ||| (v <<< s) := by
  apply Nat.eq_of_testBit_eq
  intro j
  have h16 : (65535 : Nat) = 2 ^ 16 - 1 := by norm_num
  rw [Nat.testBit_or, Nat.testBit_and, Nat.testBit_xor, Nat.testBit_shiftLeft,
    Nat.testBit_shiftLeft, Nat.one_shiftLeft, Nat.testBit_two_pow_sub_one, h16,
    Nat.testBit_two_pow_sub_one, testBit_composeBits, testBit_composeBits]
  by_cases h1 : s ≤ j ∧ j < s + w
  · have h2 : j < 16 := by omega
    have h3 : j - s < w := by omega
    have h4 : j ≥ s := h1.1
    simp [writeBits, h1, h2, h3, h4]
  · by_cases h4 : j ≥ s
    · have h3 : ¬ j - s < w := by omega
      have h5 : v.testBit (j - s) = false :=
        testBit_eq_false_of_lt_two_pow v w (j - s) hv (by omega)
      have h6 : ¬ j < s + w := by omega
      simp only [writeBits, h1, h3, h4, h5, h6, if_false, decide_True, decide_False,
        Bool.true_and, Bool.and_false, Bool.or_false, Bool.false_and]
      cases decide (j < 16) <;> cases f j <;> rfl
    · simp only [writeBits, h1, h4, if_false, decide_False, Bool.false_and, Bool.or_false]
      cases decide (j < 16) <;> cases f j <;> rfl

theorem valueChanged_spec (fuel k v : Nat) (st : Dialog G) (ri : RegisterItem) (row : Nat)
    (enabled : Bool) (maximum old : Nat) (hfits : st.fits = true)
    (hk : st.box.get? k = some ⟨ri, row, .spinBox enabled maximum old⟩) (hv : v ≤ maximum) :
    ∃ st', valueChanged (fuel + 1) k v st = some st' ∧
      st'.m_b = writeBits st.m_b ri.start ri.size v ∧ st'.fits = true ∧
      st'.box.map FieldRow.ri = st.box.map FieldRow.ri ∧
      st'.m_register = st.m_register ∧ st'.loaded = st.loaded ∧ st'.gba = st.gba ∧
      st'.trace = st.trace ∧
      (st'.m_value = composeBits st'.m_b ∨ (st'.m_value = st.m_value ∧ st'.m_b = st.m_b)) := by
  unfold valueChanged
  rw [hk]
  simp only [Nat.min_eq_left hv]
  have hmap : (st.box.set k ⟨ri, row, .spinBox enabled maximum v⟩).map FieldRow.ri
      = st.box.map FieldRow.ri := map_ri_set _ _ _ _ hk rfl
  have hfits' : ({ st with box := st.box.set k ⟨ri, row, .spinBox enabled maximum v⟩ } :
      Dialog G).fits = true := by
    rw [← hfits]
    exact fits_eq_of_map_ri _ _ hmap
  obtain ⟨s, e, hb, hf, hr, hreg, hlo, hg, ht, hval⟩ :=
    setChecked_fold fuel (fun b => ri.start + b) (fun b => v.testBit b) (List.range ri.size)
      { st with box := st.box.set k ⟨ri, row, .spinBox enabled maximum v⟩ } hfits'
  refine ⟨s, e, ?_, hf, hr.trans hmap, hreg, hlo, hg, ht, hval⟩
  rw [hb]
  exact foldl_setFlag_range st.m_b ri.start v ri.size

theorem buttonChosen_spec (k o : Nat) (st : Dialog G) (ri : RegisterItem) (row : Nat)
    (buttons : List RadioButton) (checkedId : Option Nat)
    (hk : st.box.get? k = some ⟨ri, row, .buttonGroup buttons checkedId⟩)
    (ho : buttons.any (fun b => b.id == o) = true) :
    (buttonChosen k o st).m_b
        = (if checkedId = some o then st.m_b else writeBits st.m_b ri.start ri.size o) ∧
      (buttonChosen k o st).m_value = st.m_value ∧
      (buttonChosen k o st).box = st.box.set k ⟨ri, row, .buttonGroup buttons (some o)⟩ := by
  unfold buttonChosen
  rw [hk]
  simp only [ho, if_true]
  unfold groupSetChecked
  by_cases hc : checkedId = some o
  · subst hc
    simp
  · cases checkedId with
    | none => simp [buttonToggled_eq]
    | some p => simp [hc, buttonToggled_eq, writeBits_writeBits]

theorem testBit_spinAfterToggle_value (old b w : Nat) (t : Bool) (hold : old < 2 ^ w)
    (hw : w ≤ 16) (hb : b < w) (j : Nat) :
    ((old &&& (0xFFFFFFFF ^^^ (1 <<< b))) ||| (t.toNat <<< b)).testBit j
      = if j = b then t else old.testBit j := by
  have h32 : (0xFFFFFFFF : Nat) = 2 ^ 32 - 1 := by norm_num
  have h1 : ∀ k, Nat.testBit 1 k = decide (k = 0) := fun k => by
    simpa using testBit_toNat true k
  rw [Nat.testBit_or, Nat.testBit_and, Nat.testBit_xor, Nat.testBit_shiftLeft,
    Nat.testBit_shiftLeft, h32, Nat.testBit_two_pow_sub_one, testBit_toNat, h1]
  by_cases hj : j = b
  · subst hj
    have : j < 32 := by omega
    simp [this]
  · by_cases hlt : j < 32
    · have h0 : ¬ (j - b = 0 ∧ j ≥ b) := by omega
      by_cases hge : j ≥ b
      · have : ¬ j - b = 0 := by omega
        simp [hj, hlt, hge, this]
      · simp [hj, hlt, hge]
    · have : old.testBit j = false :=
        testBit_eq_false_of_lt_two_pow old w j hold (by omega)
      have hge : j ≥ b := by omega
      have : ¬ j - b = 0 := by omega
      simp [hj, hlt, hge, *]

theorem spinAfterToggle_value_lt (old b w : Nat) (t : Bool) (hold : old < 2 ^ w)
    (hw : w ≤ 16) (hb : b < w) :
    (old &&& (0xFFFFFFFF ^^^ (1 <<< b))) ||| (t.toNat <<< b) < 2 ^ w := by
  apply Nat.lt_pow_two_of_testBit
  intro j hj
  rw [testBit_spinAfterToggle_value old b w t hold hw hb j]
  have : j ≠ b := by omega
  simp [this, testBit_eq_false_of_lt_two_pow old w j hold hj]

theorem getElem?_map_rowAfterToggle (box : List FieldRow) (k i : Nat) (t : Bool) (mv : Nat)
    (r : FieldRow) (hk : box.get? k = some r) :
    (box.map (rowAfterToggle i t mv)).get? k = some (rowAfterToggle i t mv r) := by
  simp only [List.get?_eq_getElem?, List.getElem?_map] at hk ⊢
  rw [hk]
  rfl

theorem writeBits_outside (f : Nat → Bool) (s w v j : Nat) (hj : j < s ∨ s + w ≤ j) :
    writeBits f s w v j = f j := by
  have : ¬ (s ≤ j ∧ j < s + w) := by omega
  simp [writeBits, this]

/-! ## The invariant of the rendered rows -/

theorem renderFrom_map_ri (d : RegisterDescription) :
    ∀ i, (renderFrom i d).map FieldRow.ri = d := by
  induction d with
  | nil => intro i; rfl
  | cons ri rest ih =>
    intro i
    simp only [renderFrom, List.map_cons, ih]

theorem table_fields_in_register :
    ∀ d ∈ registerDescriptions, d.all RegisterItem.inRegister = true := by
  decide

theorem describe_in_register (address : Nat) :
    (describe address).all RegisterItem.inRegister = true := by
  unfold describe
  split
  · next h => exact table_fields_in_register _ (List.get_mem _ _ _)
  · rfl

theorem rendered_fits (st : Dialog G) (address : Nat) :
    ({ st with m_register := address, box := renderFrom 0 (describe address) } :
      Dialog G).fits = true := by
  have key : ∀ s : Dialog G, s.fits = (s.box.map FieldRow.ri).all RegisterItem.inRegister := by
    intro s
    unfold Dialog.fits
    induction s.box with
    | nil => rfl
    | cons r l ih => simp [List.all_cons, ih]
  rw [key]
  show ((renderFrom 0 (describe address)).map FieldRow.ri).all RegisterItem.inRegister = true
  rw [renderFrom_map_ri]
  exact describe_in_register address

/-- For every address and every dialog, `selectRegister` returns: it leaves the rows of
the description of the address, all inside the 16-bit register, the value read in
`m_value` and its bits in the 16 bit check boxes. -/
theorem selectRegister_spec (core : Core G) (fuel address : Nat) (st : Dialog G) :
    ∃ st', selectRegister core (fuel + 1) address st = some st' ∧ st'.fits = true ∧
      st'.box.map FieldRow.ri = describe address ∧ st'.m_register = address ∧
      st'.m_value = (if st.loaded then (core.GBAIORead st.gba address).2 % 65536 else 0) ∧
      composeBits st'.m_b = st'.m_value := by
  unfold selectRegister
  obtain ⟨s, e, hv, hb, hf, hr, hreg, _⟩ := updateRegister_spec core fuel
    { st with m_register := address, box := renderFrom 0 (describe address) }
    (rendered_fits st address)
  refine ⟨s, e, hf, ?_, hreg, hv, ?_⟩
  · rw [hr]
    exact renderFrom_map_ri _ _
  · rw [hb, hv]
    apply composeBits_writeBits_all
    split
    · exact Nat.mod_lt _ (by norm_num)
    · norm_num

/-- Whenever a bit check box really toggles, `bitFlipped` runs and the slots of the field
rows leave the check boxes alone: afterwards `m_value` is the integer the 16 check boxes
encode. -/
theorem setChecked_m_value (fuel i : Nat) (t : Bool) (st : Dialog G) (hfits : st.fits = true)
    (hne : st.m_b i ≠ t) :
    ∃ st', setChecked (fuel + 1) i t st = some st' ∧ st'.m_b = setFlag st.m_b i t ∧
      st'.m_value = composeBits st'.m_b :=
  ⟨_, setChecked_eq fuel i t st hfits hne, rfl, rfl⟩

/-- When a bit check box of an enumerated field toggles, the radio button whose identifier
is the new value of the bit group gets selected if there is one; for a value without a
button the selection stays what it was. -/
theorem setChecked_selected (fuel k b : Nat) (t : Bool) (st : Dialog G) (ri : RegisterItem)
    (row : Nat) (buttons : List RadioButton) (checkedId : Option Nat) (hfits : st.fits = true)
    (hk : st.box.get? k = some ⟨ri, row, .buttonGroup buttons checkedId⟩) (hb : b < ri.size)
    (hne : st.m_b (ri.start + b) ≠ t) :
    ∃ st', setChecked (fuel + 1) (ri.start + b) t st = some st' ∧
      st'.box.get? k = some ⟨ri, row, .buttonGroup buttons
        (if buttons.any (fun x => x.id == (st'.m_value >>> ri.start) &&& ((1 <<< ri.size) - 1))
          then some ((st'.m_value >>> ri.start) &&& ((1 <<< ri.size) - 1)) else checkedId)⟩ := by
  refine ⟨_, setChecked_eq fuel _ t st hfits hne, ?_⟩
  show (st.box.map _).get? k = _
  rw [getElem?_map_rowAfterToggle _ _ _ _ _ _ hk]
  have hin : ri.start ≤ ri.start + b ∧ ri.start + b < ri.start + ri.size := by omega
  simp only [rowAfterToggle, controlAfterToggle, hin, and_self, if_true, bitFlipped]

/-! ## The claims -/

/-- C1, at the input where the code departs from it: on DISPCNT with the register reading
0, choosing the radio button "Mode 1" checks bit check box 0 with its signals blocked, so
`bitFlipped` does not run: the check boxes encode 1 while `m_value` is still 0.  Apply then
writes the stale 0, and the re-read clears the choice. -/
theorem choice_change_leaves_m_value_stale :
    (selectRegister latchCore 1 0 (Dialog.blank true 0)).map
        (fun s => ((buttonChosen 0 1 s).m_value, composeBits (buttonChosen 0 1 s).m_b,
          ((buttonChosen 0 1 s).controls.map Control.selected).head?))
      = some (0, 1, some (some 1)) ∧
    ((selectRegister latchCore 1 0 (Dialog.blank true 0)).bind
        (fun s => writeback latchCore 1 (buttonChosen 0 1 s))).map
        (fun s => (s.gba, s.m_value, composeBits s.m_b))
      = some (0, 0, 0) := by
  decide!

/-- C2, at the input where the code departs from it: the bit check boxes 0-2 are checked
from the register shown before (DISPCNT reading 0x0007); on `selectRegister(4)` with
DISPSTAT reading 0x0007 no check box changes, no `toggled` is emitted, and the three fresh
status check boxes stay unchecked.  Over a blank dialog the same selection checks them. -/
theorem selectRegister_leaves_fresh_controls_unset :
    ((selectRegister latchCore 1 0 (Dialog.blank true 0x0007)).bind
        (selectRegister latchCore 1 4)).map (fun s => (s.m_value, s.flags.take 3, s.controls))
      = some (0x0007, [true, true, true],
          [.checkBox false false, .checkBox false false, .checkBox false false,
           .checkBox true false, .checkBox true false, .checkBox true false,
           .spinBox true 255 0]) ∧
    (selectRegister latchCore 1 4 (Dialog.blank true 0x0007)).map
        (fun s => (s.m_value, s.flags.take 3, s.controls))
      = some (0x0007, [true, true, true],
          [.checkBox false true, .checkBox false true, .checkBox false true,
           .checkBox true false, .checkBox true false, .checkBox true false,
           .spinBox true 255 0]) ∧
    ((selectRegister latchCore 1 0 (Dialog.blank true 0x1200)).bind
        (selectRegister latchCore 1 4)).map (fun s => (s.m_value, s.controls.getLast?))
      = some (0x1200, some (.spinBox true 255 0)) := by
  decide!

/-- C3: a value `v` below `2 ^ size` that the numeric control of a field emits is written
bit by bit to the check boxes `start .. start + size - 1`, and the group
`(m_value >> start) & ((1 << size) - 1)` of the `m_value` that `bitFlipped` then rebuilds
from the check boxes is `v` again.  For the whole register, whatever rows are rendered:
after `updateRegister` has written the 16-bit value it read to the 16 check boxes,
`bitFlipped` rebuilds that value. -/
theorem decompose_then_recompose (core : Core G) (fuel : Nat) (st : Dialog G)
    (hfits : st.fits = true) :
    (∀ (k v : Nat) (ri : RegisterItem) (row : Nat) (enabled : Bool) (old : Nat),
      st.box.get? k = some ⟨ri, row, .spinBox enabled ((1 <<< ri.size) - 1) old⟩ →
      v < 2 ^ ri.size →
      ∃ st', valueChanged (fuel + 1) k v st = some st' ∧
        (∀ b, b < ri.size → st'.m_b (ri.start + b) = v.testBit b) ∧
        ((bitFlipped st').m_value >>> ri.start) &&& ((1 <<< ri.size) - 1) = v) ∧
    (∃ st', updateRegister core (fuel + 1) st = some st' ∧
      (∀ i, i < 16 → st'.m_b i = (hardwareRead core st).2.testBit i) ∧
      (bitFlipped st').m_value = (hardwareRead core st).2) := by
  constructor
  · intro k v ri row enabled old hk hv
    have hfit : ri.start + ri.size ≤ 16 := fits_get? st hfits k _ hk
    obtain ⟨s, e, hb, _⟩ := valueChanged_spec fuel k v st ri row enabled _ old hfits hk
      (by rw [Nat.one_shiftLeft]; omega)
    refine ⟨s, e, ?_, ?_⟩
    · intro b hb'
      rw [hb]
      have : ri.start ≤ ri.start + b ∧ ri.start + b < ri.start + ri.size := by omega
      simp [writeBits, this]
    · show (composeBits s.m_b >>> ri.start) &&& ((1 <<< ri.size) - 1) = v
      rw [hb]
      exact groupValue_writeBits _ _ _ _ hfit hv
  · obtain ⟨s, e, _, hb, _⟩ := updateRegister_spec core fuel st hfits
    rw [← hardwareRead_value] at hb
    refine ⟨s, e, ?_, ?_⟩
    · intro i hi
      rw [hb]
      simp [writeBits, hi]
    · show composeBits s.m_b = _
      rw [hb]
      exact composeBits_writeBits_all _ _ (hardwareRead_value_lt core st)

theorem decompose_then_recompose_dispstat :
    (∃ st', valueChanged 1 6 200 (Dialog.rendered true 0x1234 4) = some st' ∧
      (∀ b, b < 8 → st'.m_b (8 + b) = Nat.testBit 200 b) ∧
      ((bitFlipped st').m_value >>> 8) &&& ((1 <<< 8) - 1) = 200) ∧
    (∃ st', updateRegister latchCore 1 (Dialog.rendered true 0x1234 0) = some st' ∧
      (∀ i, i < 16 →
        st'.m_b i = (hardwareRead latchCore (Dialog.rendered true 0x1234 0)).2.testBit i) ∧
      (bitFlipped st').m_value = (hardwareRead latchCore (Dialog.rendered true 0x1234 0)).2) :=
  ⟨(decompose_then_recompose latchCore 0 (Dialog.rendered true 0x1234 4) (by decide)).1
      6 200 { description := "VCounter scanline", start := 8, size := 8 } 6 true 0
      (by rfl) (by decide),
   (decompose_then_recompose latchCore 0 (Dialog.rendered true 0x1234 0) (by decide)).2⟩

/-- C4: when bit check box `start + b` of a numeric field toggles to `t`, the spin box of
the field, holding `old` in `[0, 2^size - 1]`, is set to `(old & ~(1 << b)) | (t << b)`:
bit `b` becomes `t` and the other bits stay.  That value is at most the maximum
`(1 << size) - 1` of the spin box, so the bound of `setValue` does not change it. -/
theorem bit_toggle_updates_spin_box (fuel k b : Nat) (t : Bool) (st : Dialog G)
    (ri : RegisterItem) (row : Nat) (enabled : Bool) (old : Nat) (hfits : st.fits = true)
    (hk : st.box.get? k = some ⟨ri, row, .spinBox enabled ((1 <<< ri.size) - 1) old⟩)
    (hold : old ≤ (1 <<< ri.size) - 1) (hb : b < ri.size)
    (hne : st.m_b (ri.start + b) ≠ t) :
    ∃ st', setChecked (fuel + 1) (ri.start + b) t st = some st' ∧
      st'.box.get? k = some ⟨ri, row, .spinBox enabled ((1 <<< ri.size) - 1)
        ((old &&& (0xFFFFFFFF ^^^ (1 <<< b))) ||| (t.toNat <<< b))⟩ ∧
      (old &&& (0xFFFFFFFF ^^^ (1 <<< b))) ||| (t.toNat <<< b) ≤ (1 <<< ri.size) - 1 ∧
      (∀ j, ((old &&& (0xFFFFFFFF ^^^ (1 <<< b))) ||| (t.toNat <<< b)).testBit j
        = if j = b then t else old.testBit j) ∧
      st'.m_b (ri.start + b) = t := by
  have hfit : ri.start + ri.size ≤ 16 := fits_get? st hfits k _ hk
  have hpos : 0 < 2 ^ ri.size := Nat.two_pow_pos _
  have hold' : old < 2 ^ ri.size := by rw [Nat.one_shiftLeft] at hold; omega
  have hlt := spinAfterToggle_value_lt old b ri.size t hold' (by omega) hb
  have hle : (old &&& (0xFFFFFFFF ^^^ (1 <<< b))) ||| (t.toNat <<< b) ≤ (1 <<< ri.size) - 1 := by
    rw [Nat.one_shiftLeft ri.size]; omega
  refine ⟨_, setChecked_eq fuel _ t st hfits hne, ?_, hle,
    testBit_spinAfterToggle_value old b ri.size t hold' (by omega) hb, ?_⟩
  · show (st.box.map _).get? k = _
    rw [getElem?_map_rowAfterToggle _ _ _ _ _ _ hk]
    have hin : ri.start ≤ ri.start + b ∧ ri.start + b < ri.start + ri.size := by omega
    simp only [rowAfterToggle, controlAfterToggle, hin, and_self, if_true, spinAfterToggle,
      Nat.add_sub_cancel_left, Nat.min_eq_left hle]
  · simp [bitFlipped, setFlag]

theorem bit_toggle_updates_spin_box_dispstat :
    ∃ st', setChecked 1 (8 + 3) true (Dialog.rendered true 0x1234 4) = some st' ∧
      st'.box.get? 6 = some ⟨{ description := "VCounter scanline", start := 8, size := 8 }, 6,
        .spinBox true ((1 <<< 8) - 1) ((0 &&& (0xFFFFFFFF ^^^ (1 <<< 3))) ||| (true.toNat <<< 3))⟩ ∧
      (0 &&& (0xFFFFFFFF ^^^ (1 <<< 3))) ||| (true.toNat <<< 3) ≤ (1 <<< 8) - 1 ∧
      (∀ j, ((0 &&& (0xFFFFFFFF ^^^ (1 <<< 3))) ||| (true.toNat <<< 3)).testBit j
        = if j = 3 then true else Nat.testBit 0 j) ∧
      st'.m_b (8 + 3) = true :=
  bit_toggle_updates_spin_box 0 6 3 true (Dialog.rendered true 0x1234 4)
    { description := "VCounter scanline", start := 8, size := 8 } 6 true 0
    (by decide) (by rfl) (by decide) (by decide) (by decide)

/-- C6, at the input where the code departs from it: on DISPCNT over a blank dialog, a
register reading 0x0006 toggles bit 1 (group value 2, "Mode 2" gets selected) and then
bit 2 (group value 6, a reserved code): `setChecked(false)` on the selected button of the
exclusive group has no effect and "Mode 2" stays selected.  Reading 0x0007 leaves "Mode 3"
selected; reading 0x0005 selects "Mode 5". -/
theorem reserved_code_keeps_previous_choice :
    (selectRegister latchCore 1 0 (Dialog.blank true 0x0006)).map
        (fun s => (s.m_value, (s.controls.map Control.selected).head?))
      = some (0x0006, some (some 2)) ∧
    (selectRegister latchCore 1 0 (Dialog.blank true 0x0007)).map
        (fun s => (s.m_value, (s.controls.map Control.selected).head?))
      = some (0x0007, some (some 3)) ∧
    (selectRegister latchCore 1 0 (Dialog.blank true 0x0005)).map
        (fun s => (s.m_value, (s.controls.map Control.selected).head?))
      = some (0x0005, some (some 5)) := by
  decide!

/-- C7: every field of every entry of the table returned by `registerDescriptions()` has
`start + size <= 16`, and inside one entry any two fields at different positions occupy
disjoint bit ranges `[start, start + size)`. -/
theorem registerDescriptions_fields_fit_and_do_not_overlap :
    ∀ d ∈ registerDescriptions,
      (∀ ri ∈ d, ri.start + ri.size ≤ 16) ∧
      d.Pairwise (fun a b => a.start + a.size ≤ b.start ∨ b.start + b.size ≤ a.start) := by
  decide

theorem registerDescriptions_fields_fit_and_do_not_overlap_dispstat :
    (∀ ri ∈ describe 4, ri.start + ri.size ≤ 16) ∧
    (describe 4).Pairwise (fun a b => a.start + a.size ≤ b.start ∨ b.start + b.size ≤ a.start) :=
  registerDescriptions_fields_fit_and_do_not_overlap (describe 4) (by decide)

/-- C8: whenever the description of the register is empty, `selectRegister(address)` returns
with no field row rendered.  The description is empty when `address >> 1` is at or past
the end of the table, in which case the table is not indexed at all, and for the entry left
empty on purpose at index 1 (address 2, green swap). -/
theorem selectRegister_empty_description_renders_nothing (core : Core G) (fuel address : Nat)
    (st : Dialog G) :
    (describe address = [] →
      ∃ st', selectRegister core (fuel + 1) address st = some st' ∧ st'.box = [] ∧
        st'.m_register = address) ∧
    (registerDescriptions.length ≤ address >>> 1 → describe address = []) ∧
    describe 2 = [] ∧ registerDescriptions.get? 1 = some [] := by
  refine ⟨?_, describe_of_table_too_short address, by decide, by decide⟩
  intro h
  unfold selectRegister
  rw [h]
  obtain ⟨s, e, _, _, _, hr, hreg, _⟩ := updateRegister_spec core fuel
    { st with m_register := address, box := renderFrom 0 [] } (by rfl)
  refine ⟨s, e, ?_, hreg⟩
  simpa [renderFrom] using hr

theorem selectRegister_empty_description_renders_nothing_past_table :
    ∃ st', selectRegister latchCore 1 0x20 (Dialog.blank true 0x1234) = some st' ∧
      st'.box = [] ∧ st'.m_register = 0x20 :=
  (selectRegister_empty_description_renders_nothing latchCore 0 0x20
    (Dialog.blank true 0x1234)).1 (by decide)

/-- C9: a run of `updateRegister()` appends to the trace of core calls one bracket
interrupt .. continue, a run of `writeback()` two of them, with the register read or write
inside its bracket when a game is loaded and nothing inside otherwise; in either case the
run is well bracketed (every access after an interrupt and before the next continue, at
most one access per bracket).  When no game is loaded the value read is 0, so the
combined value and the 16 bit check boxes are cleared, and the hardware is unchanged. -/
theorem hardware_access_is_bracketed (core : Core G) (fuel : Nat) (st : Dialog G)
    (hfits : st.fits = true) :
    (∃ st' run, updateRegister core (fuel + 1) st = some st' ∧ st'.trace = st.trace ++ run ∧
      run = [Event.threadInterrupt]
        ++ ((if st.loaded then [Event.ioRead st.m_register] else [])
        ++ [Event.threadContinue]) ∧
      wellBracketed run = true ∧
      (st.loaded = false →
        accesses run = [] ∧ st'.m_value = 0 ∧ (∀ i, i < 16 → st'.m_b i = false) ∧
        st'.gba = st.gba)) ∧
    (∃ st' run, writeback core (fuel + 1) st = some st' ∧ st'.trace = st.trace ++ run ∧
      run = [Event.threadInterrupt]
        ++ ((if st.loaded then [Event.ioWrite st.m_register st.m_value] else [])
        ++ ([Event.threadContinue, Event.threadInterrupt]
        ++ ((if st.loaded then [Event.ioRead st.m_register] else [])
        ++ [Event.threadContinue]))) ∧
      wellBracketed run = true ∧
      (st.loaded = false →
        accesses run = [] ∧ st'.m_value = 0 ∧ (∀ i, i < 16 → st'.m_b i = false) ∧
        st'.gba = st.gba)) := by
  constructor
  · obtain ⟨s, e, hv, hb, _, _, _, _, hg, ht⟩ := updateRegister_spec core fuel st hfits
    refine ⟨s, _, e, ht, rfl, ?_, ?_⟩
    · cases st.loaded <;> rfl
    · intro hl
      simp only [hl, Bool.false_eq_true, if_false] at hv hb hg
      refine ⟨by simp [hl, accesses], hv, ?_, hg⟩
      intro i hi
      rw [hb]
      simp [writeBits, hi]
  · obtain ⟨s, e, _, _, _, _, hload, hnot⟩ := writeback_spec core fuel st hfits
    cases hl : st.loaded with
    | true =>
      obtain ⟨_, _, _, ht⟩ := hload hl
      refine ⟨s, _, e, ?_, rfl, by rfl, fun h => by simp at h⟩
      simpa using ht
    | false =>
      obtain ⟨hv, hb, hg, ht⟩ := hnot hl
      refine ⟨s, _, e, ?_, rfl, by rfl, fun _ => ⟨by simp [accesses], hv, ?_, hg⟩⟩
      · simpa using ht
      · intro i hi
        rw [hb]
        simp [writeBits, hi]

theorem hardware_access_is_bracketed_not_loaded :
    (Dialog.blank false 0x1234).fits = true ∧
    ∃ st' run, writeback latchCore 1 (Dialog.blank false 0x1234) = some st' ∧
      st'.trace = (Dialog.blank false 0x1234).trace ++ run ∧
      run = [Event.threadInterrupt] ++ ([] ++ ([Event.threadContinue, Event.threadInterrupt]
        ++ ([] ++ [Event.threadContinue]))) ∧
      wellBracketed run = true ∧
      ((Dialog.blank false 0x1234).loaded = false →
        accesses run = [] ∧ st'.m_value = 0 ∧ (∀ i, i < 16 → st'.m_b i = false) ∧
        st'.gba = 0x1234) :=
  ⟨by decide, (hardware_access_is_bracketed latchCore 0 (Dialog.blank false 0x1234)
    (by decide)).2⟩

/-- C10: a change of the numeric control or of the choice control of a field to a value
`v` below `2 ^ size` alters only the check boxes `start .. start + size - 1`: afterwards
the 16 check boxes encode `(old & ~(((1 << size) - 1) << start)) | (v << start)`, where
`old` is what they encoded before, and every check box outside the field keeps its state. -/
theorem control_change_alters_only_field_bits (fuel k v : Nat) (st : Dialog G)
    (ri : RegisterItem) (row : Nat) (hfits : st.fits = true) (hv : v < 2 ^ ri.size) :
    (∀ enabled old,
      st.box.get? k = some ⟨ri, row, .spinBox enabled ((1 <<< ri.size) - 1) old⟩ →
      ∃ st', valueChanged (fuel + 1) k v st = some st' ∧
        composeBits st'.m_b
          = (composeBits st.m_b &&& (65535 ^^^ (((1 <<< ri.size) - 1) <<< ri.start)))
              ||| (v <<< ri.start) ∧
        ∀ j, j < ri.start ∨ ri.start + ri.size ≤ j → st'.m_b j = st.m_b j) ∧
    (∀ buttons checkedId,
      st.box.get? k = some ⟨ri, row, .buttonGroup buttons checkedId⟩ →
      buttons.any (fun b => b.id == v) = true → checkedId ≠ some v →
      composeBits (buttonChosen k v st).m_b
          = (composeBits st.m_b &&& (65535 ^^^ (((1 <<< ri.size) - 1) <<< ri.start)))
              ||| (v <<< ri.start) ∧
        ∀ j, j < ri.start ∨ ri.start + ri.size ≤ j → (buttonChosen k v st).m_b j = st.m_b j) := by
  constructor
  · intro enabled old hk
    have hfit : ri.start + ri.size ≤ 16 := fits_get? st hfits k _ hk
    obtain ⟨s, e, hb, _⟩ := valueChanged_spec fuel k v st ri row enabled _ old hfits hk
      (by rw [Nat.one_shiftLeft]; omega)
    refine ⟨s, e, ?_, ?_⟩
    · rw [hb]
      exact composeBits_writeBits _ _ _ _ hfit hv
    · intro j hj
      rw [hb]
      exact writeBits_outside _ _ _ _ _ hj
  · intro buttons checkedId hk hany hne
    have hfit : ri.start + ri.size ≤ 16 := fits_get? st hfits k _ hk
    obtain ⟨hb, _, _⟩ := buttonChosen_spec k v st ri row buttons checkedId hk hany
    rw [if_neg hne] at hb
    refine ⟨?_, ?_⟩
    · rw [hb]
      exact composeBits_writeBits _ _ _ _ hfit hv
    · intro j hj
      rw [hb]
      exact writeBits_outside _ _ _ _ _ hj

theorem control_change_alters_only_field_bits_examples :
    (∃ st', valueChanged 1 6 200 (Dialog.rendered true 0x1234 4) = some st' ∧
      composeBits st'.m_b
        = (composeBits (Dialog.rendered true 0x1234 4).m_b
            &&& (65535 ^^^ (((1 <<< 8) - 1) <<< 8))) ||| (200 <<< 8) ∧
      ∀ j, j < 8 ∨ 8 + 8 ≤ j → st'.m_b j = (Dialog.rendered true 0x1234 4).m_b j) ∧
    (composeBits (buttonChosen 0 3 (Dialog.rendered true 0x1234 0)).m_b
        = (composeBits (Dialog.rendered true 0x1234 0).m_b
            &&& (65535 ^^^ (((1 <<< 3) - 1) <<< 0))) ||| (3 <<< 0) ∧
      ∀ j, j < 0 ∨ 0 + 3 ≤ j →
        (buttonChosen 0 3 (Dialog.rendered true 0x1234 0)).m_b j
          = (Dialog.rendered true 0x1234 0).m_b j) :=
  ⟨(control_change_alters_only_field_bits 0 6 200 (Dialog.rendered true 0x1234 4)
      { description := "VCounter scanline", start := 8, size := 8 } 6
      (by decide) (by decide)).1 true 0 (by rfl),
   (control_change_alters_only_field_bits 0 0 3 (Dialog.rendered true 0x1234 0)
      backgroundMode 0 (by decide) (by decide)).2 (radioButtons backgroundMode)
      none (by rfl) (by decide) (by decide)⟩

end IOViewer
